import Mathlib

/-!
Verification of the Tensor engine (src/Tensor.ts, the current design: the
class with the broadcast view overlay, `expand`/`unexpand`, and the
view-aware `shape`/`strides`/`size` getters).

Modelling conventions:
* JS numbers holding data values are idealized as integers (`ℤ`); the engine
  itself performs no arithmetic on data values (only caller-supplied
  reducers/mappers do), and every concrete scenario in the claims uses small
  integer data, exact in float64.
* Shape/stride/index values are `ℕ`.  Writes into a `Uint32Array` truncate
  modulo 2^32 in JS; the only place where a caller-supplied number is
  converted this way is `expand`'s `new Uint32Array(dims)`, which the model
  reproduces with `% 2 ^ 32`.  Strides/sizes are kept as exact naturals (the
  spec fixes 32-bit as sufficient for realistic extents).
* JS `Math.floor(a / b)` and `a % b` on nonnegative integers are Nat division
  and modulo.  For `b = 0` JS produces Infinity/NaN; Lean's convention
  (`a / 0 = 0`, `a % 0 = a`) is only ever exercised on degenerate size-0
  tensors that no claim's quantifier reaches.
* Reading `data[i]` out of bounds yields `undefined` in JS; iteration traces
  record the read as `Option ℤ` (`none` = undefined), and folds that the code
  only runs on in-bounds indices use a default that theorems guard with
  explicit in-bounds hypotheses.
* Thrown `Error`s become an explicit error type; the five error kinds of the
  design are distinguished as constructors, `shapeMismatch` carrying the
  attempted shape and the data length that the message interpolates.
-/

namespace TensorTS

/-- Error kinds raised by the engine (each `throw new Error(...)` site). -/
inductive TError where
  | shapeMismatch (shape : List ℕ) (dataLen : ℕ)
  | invalidDimension
  | dimensionOutOfRange (dim len : ℕ)
  | incompatibleExpand
  | invalidExpandSize
deriving DecidableEq

/-- Strides produced by `Tensor.SetStrides`: iterating `i` from the last
dimension down, `strides[i] = stride; stride *= shape[i]`, so
`strides[i] = shape[i+1] * ... * shape[last]`.  The running product that
`SetStrides` returns is `shape.prod`. -/
def stridesOf : List ℕ → List ℕ
  | [] => []
  | _ :: rest => rest.prod :: stridesOf rest

/-- Loop body of `getIndices`: for `i` ascending over the strides,
`tick = Math.floor(index / strides[i]); index -= tick * strides[i]`
(the remainder is exactly `index % strides[i]`). -/
def getIndicesL : ℕ → List ℕ → List ℕ
  | _, [] => []
  | index, s :: rest => index / s :: getIndicesL (index % s) rest

/-- Loop of `getIndex`: `index += indices[i] * strides[i]` summed over all
dimensions (the code iterates from the last dimension down; the sum is
order-independent).  It is defined for an index list of the strides'
length, the only case the code's callers produce. -/
def getIndexL (indices strides : List ℕ) : ℕ :=
  ((indices.zip strides).map (fun p => p.1 * p.2)).sum

/-- The Tensor state: the flat buffer with its native shape/strides/size,
plus the optional broadcast-view overlay `_shape`/`_strides`/`_size`
(null, i.e. `none`, while no view is active). -/
structure Tensor where
  data : List ℤ
  dataShape : List ℕ
  dataStrides : List ℕ
  dataSize : ℕ
  _shape : Option (List ℕ)
  _strides : Option (List ℕ)
  _size : Option ℕ
deriving DecidableEq

/-- Getter `shape`: `this._shape || this.dataShape` (a typed array object is
always truthy, so only `null` falls back). -/
def Tensor.shape (t : Tensor) : List ℕ :=
  t._shape.getD t.dataShape

/-- Getter `strides`: `this._strides || this.dataStrides`. -/
def Tensor.strides (t : Tensor) : List ℕ :=
  t._strides.getD t.dataStrides

/-- Getter `size`: `this._size || this.dataSize`; `0` is falsy in JS, so a
stored view size of `0` would also fall back to the native size. -/
def Tensor.size (t : Tensor) : ℕ :=
  match t._size with
  | some n => if n = 0 then t.dataSize else n
  | none => t.dataSize

/-- Constructor `new Tensor(shape, data)`: copies the shape, derives strides
via `SetStrides` (whose returned running product is `shape.prod`), and
throws the shape-mismatch error when `data.length != size`.  A failed
construction yields no Tensor. -/
def Tensor.make (shape : List ℕ) (data : List ℤ) : Except TError Tensor :=
  let strides := stridesOf shape
  let size := shape.prod
  if data.length ≠ size then
    .error (.shapeMismatch shape data.length)
  else
    .ok ⟨data, shape, strides, data.length, none, none, none⟩

/-- Method `getIndices(index)`: decomposes a linear index against the
current (view-aware) strides. -/
def Tensor.getIndices (t : Tensor) (index : ℕ) : List ℕ :=
  getIndicesL index t.strides

/-- Method `getIndex(indices)`: linearizes a coordinate against the current
(view-aware) strides. -/
def Tensor.getIndex (t : Tensor) (indices : List ℕ) : ℕ :=
  getIndexL indices t.strides

/-- Method `dimOffset(n, dim)`:
`(v * s * Math.floor(n / s) + n % s) % this.dataSize` with `v`/`s` the
current shape/stride at `dim`. -/
def Tensor.dimOffset (t : Tensor) (n dim : ℕ) : ℕ :=
  let v := t.shape.getD dim 0
  let s := t.strides.getD dim 0
  (v * s * (n / s) + n % s) % t.dataSize

/-- Iteration count of a JS loop `for (let i = 0; i < x; i++)` when `x` is
the real-number quotient `a / b`: the loop body runs `⌈a / b⌉` times
(`0` when `b = 0` and `a = 0`, matching `0/0 = NaN` ending the loop
immediately). -/
def jsCeilDiv (a b : ℕ) : ℕ :=
  (a + b - 1) / b

/-- Trace of `_forEach(iterator)` (the whole-tensor `forEach` branch): for
`i` in `0 .. size-1` it calls `iterator(data[index], index, -1, size)` with
`index = i % dataSize`.  Each record is the argument tuple
(value, index, dimIndex, size); the value is `none` when the read is out of
bounds (JS `undefined`). -/
def Tensor.forEachTrace (t : Tensor) : List (Option ℤ × ℕ × ℤ × ℕ) :=
  (List.range t.size).map (fun i =>
    (t.data.get? (i % t.dataSize), i % t.dataSize, (-1 : ℤ), t.size))

/-- Trace of the per-dimension `forEach(dim, iterator)` branch: it reads
`stride`/`values` from the current strides/shape at `dim`, computes
`interations = dataSize / values` (real JS division, so the loop runs
`⌈dataSize / values⌉` times), and for each slice `i` computes
`offset = dimOffset(i, dim)` and calls
`iterator(data[index], index, i, values)` for `index = offset + v * stride`,
`v` ascending in `0 .. values-1`.  No modulo is applied to `index`; an
out-of-bounds read is recorded as `none`. -/
def Tensor.dimForEachTrace (t : Tensor) (dim : ℕ) : List (Option ℤ × ℕ × ℕ × ℕ) :=
  let stride := t.strides.getD dim 0
  let values := t.shape.getD dim 0
  let interations := jsCeilDiv t.dataSize values
  (List.range interations).flatMap (fun i =>
    let offset := t.dimOffset i dim
    (List.range values).map (fun v =>
      (t.data.get? (offset + v * stride), offset + v * stride, i, values)))

/-- Method `_reduce(reducer, mapper)` (the global-reduce branch of
`reduce`): seeds `acc = data[0]`, folds `i` in `1 .. size-1` with
`acc = reducer(acc, data[i % dataSize])`, and returns
`new Tensor([1], [mapper(acc, size)])`.  When `reduce` is called without a
mapper the dispatcher passes the identity `(a) => a`. -/
def Tensor._reduce (t : Tensor) (reducer : ℤ → ℤ → ℤ) (mapper : ℤ → ℕ → ℤ) :
    Except TError Tensor :=
  let acc := (List.range' 1 (t.size - 1)).foldl
    (fun a i => reducer a (t.data.getD (i % t.dataSize) 0)) (t.data.getD 0 0)
  Tensor.make [1] [mapper acc t.size]

/-- Method `reduce(dim, keepdim, reducer, mapper)` (the per-dimension
branch): after `assertDim`, builds the output dims (extent 1 kept at `dim`
when `keepdim`, otherwise the dimension removed), sets
`outSize = size / values` (view-aware logical size), and for each output
position `i` seeds `acc = data[offset]` with `offset = dimOffset(i, dim)`,
folds `v` in `1 .. values-1` with `acc = reducer(acc, data[offset + v * stride])`,
and stores `mapper(acc, values)`; the result is wrapped by the constructor.
A negative `dim` would raise `invalidDimension`; the model takes `dim : ℕ`,
so only the `dim >= len` check remains. -/
def Tensor.reduceDim (t : Tensor) (dim : ℕ) (keepdim : Bool)
    (reducer : ℤ → ℤ → ℤ) (mapper : ℤ → ℕ → ℤ) : Except TError Tensor :=
  let shape := t.shape
  let stride := t.strides.getD dim 0
  let values := shape.getD dim 0
  let len := shape.length
  if dim ≥ len then .error (.dimensionOutOfRange dim len)
  else
    let outDims := if keepdim then shape.set dim 1 else shape.eraseIdx dim
    let outSize := t.size / values
    let output := (List.range outSize).map (fun i =>
      let offset := t.dimOffset i dim
      let acc := (List.range' 1 (values - 1)).foldl
        (fun a v => reducer a (t.data.getD (offset + v * stride) 0))
        (t.data.getD offset 0)
      mapper acc values)
    Tensor.make outDims output

/-- Aligned native extent read by `expand`'s check loop:
`this.dataShape[shapeLen - i] || 1`.  A trailing position past the native
rank reads `undefined` (falsy), and a native extent of `0` is also falsy;
both default to `1`. -/
def oldSizeAt (dataShape : List ℕ) (i : ℕ) : ℕ :=
  if i ≤ dataShape.length then
    let x := dataShape.getD (dataShape.length - i) 0
    if x = 0 then 1 else x
  else 1

/-- One iteration of `expand`'s validation loop at trailing offset `i`
(`i` runs `1 .. targetLen`): `IncompatibleExpand` when
`oldSize != 1 && newSize != oldSize`, else `InvalidExpandSize` when
`newSize < 1`, else the pair passes. -/
def pairCheck (dataShape target : List ℕ) (i : ℕ) : Option TError :=
  let oldSize := oldSizeAt dataShape i
  let newSize := target.getD (target.length - i) 0
  if oldSize ≠ 1 ∧ newSize ≠ oldSize then some .incompatibleExpand
  else if newSize < 1 then some .invalidExpandSize
  else none

/-- Method `expand(...dims)`: converts the arguments through
`new Uint32Array(dims)` (truncation modulo 2^32), validates all
trailing-aligned pairs (throwing at the first bad pair, before any field is
assigned), and on success installs the view overlay: the target shape, its
`SetStrides` strides, and the returned product as `_size`.  The result pairs
the post-state with the raised error, the post-state being the unchanged
receiver whenever an error is raised. -/
def Tensor.expand (t : Tensor) (dims : List ℕ) : Tensor × Option TError :=
  let shape := dims.map (fun d => d % 2 ^ 32)
  match (List.range' 1 shape.length).findSome? (pairCheck t.dataShape shape) with
  | some e => (t, some e)
  | none =>
    ({ t with
        _shape := some shape
        _strides := some (stridesOf shape)
        _size := some shape.prod }, none)

/-- Method `unexpand()`: clears the view overlay. -/
def Tensor.unexpand (t : Tensor) : Tensor :=
  { t with _shape := none, _strides := none, _size := none }

/-- JS nested-array value built by `toNestedArrays`: either a number leaf or
an array whose cells may be holes (`none` = never assigned). -/
inductive NVal where
  | num (v : ℤ)
  | arr (elems : List (Option NVal))

/-- Assignment `a[i] = v` on a JS array: extends with holes when `i` is past
the current length. -/
def setIdx (l : List (Option NVal)) (i : ℕ) (v : Option NVal) :
    List (Option NVal) :=
  if i < l.length then l.set i v
  else l ++ List.replicate (i - l.length) none ++ [v]

/-- Body of `toNestedArrays` for one element: walks
`temp = temp[indice] = temp[indice] || []` along all coordinates but the
last (reusing a truthy cell, creating `[]` for a hole), then assigns the
value at the last coordinate.  Writing into a number leaf is a JS no-op on a
primitive (unreachable in well-formed runs). -/
def NVal.setPath : NVal → List ℕ → ℤ → NVal
  | .num q, _, _ => .num q
  | .arr a, [], _ => .arr a
  | .arr a, [i], v => .arr (setIdx a i (some (.num v)))
  | .arr a, i :: j :: rest, v =>
    let child := match a.getD i none with
      | some c => c
      | none => .arr []
    .arr (setIdx a i (some (child.setPath (j :: rest) v)))

/-- Method `toNestedArrays()`: starting from `[]`, for every logical index
`i` in `0 .. size-1` it decomposes `i` via `getIndices` (current strides)
and places `data[i % dataSize]` at that coordinate path. -/
def Tensor.toNestedArrays (t : Tensor) : NVal :=
  (List.range t.size).foldl
    (fun arr i => arr.setPath (t.getIndices i) (t.data.getD (i % t.dataSize) 0))
    (.arr [])

/-- Well-formedness of the current (view-aware) descriptor: the strides are
the `SetStrides` strides of the current shape and the size is its product.
The constructor establishes this for the native triple and `expand`
re-establishes it for the view triple. -/
def Tensor.CurrentWF (t : Tensor) : Prop :=
  t.strides = stridesOf t.shape ∧ t.size = t.shape.prod

instance (t : Tensor) : Decidable t.CurrentWF := by
  unfold Tensor.CurrentWF; infer_instance

/-- Empty placeholder tensor used only to destructure `Except` results of
concrete pipelines. -/
def tensor0 : Tensor :=
  ⟨[], [], [], 0, none, none, none⟩

/-- Extracts the tensor from a successful construction, with a default for
the error case (never taken in the concrete pipelines below). -/
def okD (e : Except TError Tensor) (d : Tensor) : Tensor :=
  match e with
  | .ok t => t
  | .error _ => d

def tC3 : Tensor := ((okD (Tensor.make [1] [5]) tensor0).expand [2]).1

def tC4 : Tensor := ((okD (Tensor.make [2] [5,6]) tensor0).expand [2,2]).1

def tC7 : Tensor := okD (Tensor.make [2,3] [1,2,3,4,5,6]) tensor0

def tC8 : Tensor := okD (Tensor.make [0] []) tensor0

def dataTwelve : List ℤ := [0,1,2,3,4,5,6,7,8,9,10,11]

theorem getIndexL_cons (c s : ℕ) (cs ss : List ℕ) :
    getIndexL (c :: cs) (s :: ss) = c * s + getIndexL cs ss := rfl

theorem getIndexL_lt {C shape : List ℕ} (h : List.Forall₂ (· < ·) C shape) :
    getIndexL C (stridesOf shape) < shape.prod := by
  induction h with
  | nil => simp [getIndexL, stridesOf]
  | @cons c d cs ds hcd htl ih =>
    rw [stridesOf, getIndexL_cons, List.prod_cons]
    calc c * ds.prod + getIndexL cs (stridesOf ds)
        < c * ds.prod + ds.prod := by omega
      _ = (c + 1) * ds.prod := by ring
      _ ≤ d * ds.prod := Nat.mul_le_mul_right _ hcd

theorem getIndicesL_getIndexL {C shape : List ℕ} (h : List.Forall₂ (· < ·) C shape) :
    getIndicesL (getIndexL C (stridesOf shape)) (stridesOf shape) = C := by
  induction h with
  | nil => simp [getIndexL, getIndicesL, stridesOf]
  | @cons c d cs ds hcd htl ih =>
    have hR : getIndexL cs (stridesOf ds) < ds.prod := getIndexL_lt htl
    have hP : 0 < ds.prod := Nat.pos_of_ne_zero (by omega)
    rw [stridesOf, getIndexL_cons, getIndicesL]
    congr 1
    · rw [Nat.mul_comm c ds.prod, Nat.mul_add_div hP, Nat.div_eq_of_lt hR,
          Nat.add_zero]
    · rw [Nat.mul_comm c ds.prod, Nat.mul_add_mod, Nat.mod_eq_of_lt hR]
      exact ih

theorem getIndexL_getIndicesL {shape : List ℕ} :
    ∀ L, L < shape.prod →
      getIndexL (getIndicesL L (stridesOf shape)) (stridesOf shape) = L := by
  induction shape with
  | nil =>
    intro L hL
    simp only [List.prod_nil] at hL
    have : L = 0 := by omega
    subst this
    simp [getIndexL, getIndicesL, stridesOf]
  | cons d ds ih =>
    intro L hL
    rw [List.prod_cons] at hL
    have hP : 0 < ds.prod := by
      rcases Nat.eq_zero_or_pos ds.prod with h0 | h0
      · rw [h0, Nat.mul_zero] at hL; omega
      · exact h0
    rw [stridesOf, getIndicesL, getIndexL_cons,
        ih (L % ds.prod) (Nat.mod_lt _ hP)]
    exact Nat.div_add_mod' L ds.prod

theorem range_flatMap_map {α : Type} (n m : ℕ) (f : ℕ → ℕ → α) :
    (List.range n).flatMap (fun i => (List.range m).map (f i)) =
      (List.range (n * m)).map (fun k => f (k / m) (k % m)) := by
  induction n with
  | zero => simp
  | succ n ih =>
    rw [List.range_succ, List.flatMap_append, ih, Nat.succ_mul, List.range_add,
        List.map_append, List.map_map]
    congr 1
    · simp only [List.flatMap_cons, List.flatMap_nil, List.append_nil]
      apply List.map_congr_left
      intro v hv
      rw [List.mem_range] at hv
      simp only [Function.comp_apply]
      rw [Nat.add_comm (n * m) v, Nat.mul_comm n m,
          Nat.add_mul_div_left _ _ (by omega : 0 < m),
          Nat.add_mul_mod_self_left, Nat.div_eq_of_lt hv, Nat.mod_eq_of_lt hv,
          Nat.zero_add]

theorem findSome?_none_iff {α β : Type} (f : α → Option β) (l : List α) :
    l.findSome? f = none ↔ ∀ i ∈ l, f i = none := by
  induction l with
  | nil => simp
  | cons a l ih =>
    cases h : f a <;> simp [List.findSome?_cons, h, ih]

theorem exists_of_findSome?_some {α β : Type} {f : α → Option β} {l : List α}
    {e : β} (hf : l.findSome? f = some e) : ∃ i ∈ l, f i = some e := by
  induction l with
  | nil => simp [List.findSome?] at hf
  | cons a l ih =>
    rw [List.findSome?_cons] at hf
    cases h : f a with
    | some b =>
      rw [h] at hf
      simp only at hf
      exact ⟨a, List.mem_cons_self a l, by rw [h, hf]⟩
    | none =>
      rw [h] at hf
      simp only at hf
      obtain ⟨i, hi, hfi⟩ := ih hf
      exact ⟨i, List.mem_cons_of_mem a hi, hfi⟩

theorem pairCheck_none_iff (ds tgt : List ℕ) (i : ℕ) :
    pairCheck ds tgt i = none ↔
      (oldSizeAt ds i = 1 ∨ tgt.getD (tgt.length - i) 0 = oldSizeAt ds i) ∧
        1 ≤ tgt.getD (tgt.length - i) 0 := by
  constructor
  · intro h
    rw [pairCheck] at h
    split_ifs at h with h1 h2
    push_neg at h1
    rcases eq_or_ne (oldSizeAt ds i) 1 with he | he
    · exact ⟨Or.inl he, by omega⟩
    · exact ⟨Or.inr (h1 he), by omega⟩
  · intro hp
    rw [pairCheck]
    split_ifs with h1 h2
    · rcases hp.1 with he | he
      · exact absurd he h1.1
      · exact absurd he h1.2
    · omega
    · rfl

theorem pairCheck_incompat {ds tgt : List ℕ} {i : ℕ}
    (h : pairCheck ds tgt i = some .incompatibleExpand) :
    oldSizeAt ds i ≠ 1 ∧ tgt.getD (tgt.length - i) 0 ≠ oldSizeAt ds i := by
  rw [pairCheck] at h
  split_ifs at h with h1 h2
  · exact h1
  · simp at h

theorem pairCheck_invsize {ds tgt : List ℕ} {i : ℕ}
    (h : pairCheck ds tgt i = some .invalidExpandSize) :
    tgt.getD (tgt.length - i) 0 < 1 := by
  rw [pairCheck] at h
  split_ifs at h with h1 h2
  · simp at h
  · exact h2

/-- C1: construction fails with the shape-mismatch error exactly when the
data length differs from the shape product, and a successful construction
has `size` equal to the data length. -/
theorem C1_construction (S : List ℕ) (D : List ℤ) :
    (Tensor.make S D = .error (.shapeMismatch S D.length) ↔ D.length ≠ S.prod) ∧
    (∀ t, Tensor.make S D = .ok t → t.size = D.length) := by
  constructor
  · by_cases h : D.length = S.prod <;> simp [Tensor.make, h]
  · intro t ht
    rw [Tensor.make] at ht
    split at ht
    · exact absurd ht (by simp)
    · injection ht with h2
      subst h2
      rfl

theorem C1_witness :
    (⟨[1,2,3], [3], [1], 3, none, none, none⟩ : Tensor).size = 3 :=
  (C1_construction [3] [1,2,3]).2 _ rfl

/-- C2: on a well-formed current descriptor (native or view), `getIndices`
and `getIndex` are mutually inverse over valid coordinates and valid linear
indices. -/
theorem C2_roundtrip (t : Tensor) (h : t.CurrentWF) :
    (∀ C, List.Forall₂ (· < ·) C t.shape → t.getIndices (t.getIndex C) = C) ∧
    (∀ L, L < t.size → t.getIndex (t.getIndices L) = L) := by
  obtain ⟨hs, hz⟩ := h
  constructor
  · intro C hC
    rw [Tensor.getIndices, Tensor.getIndex, hs]
    exact getIndicesL_getIndexL hC
  · intro L hL
    rw [Tensor.getIndices, Tensor.getIndex, hs]
    exact getIndexL_getIndicesL L (by rw [hz] at hL; exact hL)

theorem C2_witness :
    (((okD (Tensor.make [1,3] [1,2,3]) tensor0).expand [4,3]).1.getIndex
      (((okD (Tensor.make [1,3] [1,2,3]) tensor0).expand [4,3]).1.getIndices 7)) = 7 :=
  (C2_roundtrip _ (by decide)).2 7 (by decide)

/-- C3 counterexample: the broadcast tensor of native shape `[1]` expanded
to `[2]` has logical size 2, but the whole-tensor `forEach` passes the index
argument `i % nativeSize`, i.e. `0, 0` — not the strictly increasing
`0, 1`. -/
theorem C3_counterexample :
    (tC3.forEachTrace).map (fun r => r.2.1) ≠ List.range tC3.size := by decide

/-- C3 amended: the whole-tensor `forEach` makes exactly `size` calls, the
`i`-th passing index argument `i % nativeSize` (with the element read
there, dimension index -1 and the logical size); when no view overlay is
active those index arguments are exactly the strictly increasing
`0 .. size-1`. -/
theorem C3_amended (t : Tensor) :
    (t.forEachTrace).length = t.size ∧
    (∀ i, i < t.size →
      (t.forEachTrace)[i]? =
        some (t.data.get? (i % t.dataSize), i % t.dataSize, (-1 : ℤ), t.size)) ∧
    (t._size = none → (t.forEachTrace).map (fun r => r.2.1) = List.range t.size) := by
  refine ⟨by simp [Tensor.forEachTrace], ?_, ?_⟩
  · intro i hi
    rw [Tensor.forEachTrace, List.getElem?_map, List.getElem?_range hi]
    rfl
  · intro hnone
    have hsz : t.size = t.dataSize := by simp [Tensor.size, hnone]
    rw [Tensor.forEachTrace, List.map_map]
    have hc : ∀ i ∈ List.range t.size,
        ((fun r : Option ℤ × ℕ × ℤ × ℕ => r.2.1) ∘
          (fun i => (t.data.get? (i % t.dataSize), i % t.dataSize, (-1 : ℤ), t.size))) i
          = (fun i => i) i := by
      intro i hi
      rw [List.mem_range] at hi
      simp only [Function.comp_apply]
      exact Nat.mod_eq_of_lt (by omega)
    rw [List.map_congr_left hc, List.map_id']

theorem C3_witness :
    ((okD (Tensor.make [2,2] [1,2,3,4]) tensor0).forEachTrace).map
      (fun r => r.2.1) = List.range (okD (Tensor.make [2,2] [1,2,3,4]) tensor0).size :=
  (C3_amended _).2.2 rfl

/-- C4 counterexample: the native-shape-`[2]` tensor expanded to `[2,2]` has
logical size 4 and extent 2 at dimension 1, so the claim predicts
`size / extent = 2` slice iterations (4 iterator calls); the code computes
`interations = nativeSize / extent = 1` and makes only 2 calls. -/
theorem C4_counterexample :
    (tC4.dimForEachTrace 1).length ≠
      (tC4.size / (tC4.shape.getD 1 0)) * (tC4.shape.getD 1 0) := by decide

/-- C4 amended: for a valid dimension the per-dimension `forEach` makes
`⌈nativeSize / extent⌉` slice iterations (the JS loop bound is the real
quotient `dataSize / values`), and the `k`-th call (slice `i = k / extent`,
position `v = k % extent`, ascending) passes index argument
`dimOffset(i, dim) + v * stride` — with no modulo applied — reading `data`
there (`none` = JS `undefined` when out of bounds). -/
theorem C4_amended (t : Tensor) (dim : ℕ) (_hdim : dim < t.shape.length) :
    t.dimForEachTrace dim =
      (List.range (jsCeilDiv t.dataSize (t.shape.getD dim 0) * (t.shape.getD dim 0))).map
        (fun k =>
          (t.data.get? (t.dimOffset (k / (t.shape.getD dim 0)) dim +
              (k % (t.shape.getD dim 0)) * (t.strides.getD dim 0)),
           t.dimOffset (k / (t.shape.getD dim 0)) dim +
              (k % (t.shape.getD dim 0)) * (t.strides.getD dim 0),
           k / (t.shape.getD dim 0), t.shape.getD dim 0)) ∧
    (t.dimForEachTrace dim).length =
      jsCeilDiv t.dataSize (t.shape.getD dim 0) * (t.shape.getD dim 0) := by
  have h1 : t.dimForEachTrace dim =
      (List.range (jsCeilDiv t.dataSize (t.shape.getD dim 0) * (t.shape.getD dim 0))).map
        (fun k =>
          (t.data.get? (t.dimOffset (k / (t.shape.getD dim 0)) dim +
              (k % (t.shape.getD dim 0)) * (t.strides.getD dim 0)),
           t.dimOffset (k / (t.shape.getD dim 0)) dim +
              (k % (t.shape.getD dim 0)) * (t.strides.getD dim 0),
           k / (t.shape.getD dim 0), t.shape.getD dim 0)) := by
    rw [Tensor.dimForEachTrace]
    exact range_flatMap_map _ _ _
  exact ⟨h1, by rw [h1]; simp⟩

theorem C4_witness :
    ((okD (Tensor.make [2,2] [1,2,3,4]) tensor0).dimForEachTrace 0).length = 4 :=
  (C4_amended (okD (Tensor.make [2,2] [1,2,3,4]) tensor0) 0 (by decide)).2

/-- C5: the global reduce seeds its accumulator from `data[0]`, folds the
logical elements `1 .. size-1`, each read at `data[i % nativeSize]`, applies
the finalizer with the logical size, and wraps the single value in a
shape-`[1]` tensor; in particular summing `Tensor([3], [1,2,3])` gives a
shape-`[1]` tensor holding 6. -/
theorem C5_globalReduce (t : Tensor) (r : ℤ → ℤ → ℤ) (m : ℤ → ℕ → ℤ)
    (_h : 0 < t.data.length) :
    (t._reduce r m).map (fun o => (o.shape, o.size, o.data)) =
      .ok ([1], 1,
        [m (((List.range' 1 (t.size - 1)).map
              (fun i => t.data.getD (i % t.dataSize) 0)).foldl r (t.data.getD 0 0))
           t.size]) ∧
    ((Tensor.make [3] [1,2,3]).bind
        (fun t3 => t3._reduce (· + ·) (fun a _ => a))).map
      (fun o => (o.shape, o.data)) = .ok ([1], ([6] : List ℤ)) := by
  constructor
  · rw [Tensor._reduce, Tensor.make, List.foldl_map]
    simp [Except.map, Tensor.shape, Tensor.size]
  · rfl

theorem C5_witness :
    (((okD (Tensor.make [2] [7,9]) tensor0)._reduce (· + ·) (fun a _ => a)).map
      (fun o => (o.shape, o.size, o.data))) = .ok ([1], 1, ([16] : List ℤ)) :=
  ((C5_globalReduce (okD (Tensor.make [2] [7,9]) tensor0) (· + ·)
    (fun a _ => a) (by decide)).1).trans (by rfl)

/-- C6: reducing `Tensor([2,2], [1,2,3,4])` along dimension 0 without
keeping the dimension, with addition, yields shape `[2]` and data `[4,6]`
(the per-dimension reduce of the current design, named `dimReduce` in the
earlier design the spec's scenario quotes). -/
theorem C6_dimReduce :
    ((Tensor.make [2,2] [1,2,3,4]).bind
        (fun t => t.reduceDim 0 false (· + ·) (fun a _ => a))).map
      (fun o => (o.shape, o.data)) = .ok ([2], ([4,6] : List ℤ)) := by rfl

/-- C7 counterexample: `Tensor([2,3], [1,2,3,4,5,6]).toNestedArrays()` does
not produce `[[1,4],[2,5],[3,6]]` — under the design's
`strides[last] = 1` convention it produces `[[1,2,3],[4,5,6]]`. -/
theorem C7_counterexample :
    tC7.toNestedArrays ≠
      .arr [some (.arr [some (.num 1), some (.num 4)]),
            some (.arr [some (.num 2), some (.num 5)]),
            some (.arr [some (.num 3), some (.num 6)])] := by
  intro h
  rw [show tC7.toNestedArrays =
    .arr [some (.arr [some (.num 1), some (.num 2), some (.num 3)]),
          some (.arr [some (.num 4), some (.num 5), some (.num 6)])] from rfl] at h
  simp at h

/-- C7 amended: `Tensor([2,3], [1,2,3,4,5,6]).toNestedArrays()` yields
`[[1,2,3],[4,5,6]]` (outer index = dimension 0 of extent 2, inner
index = dimension 1 of extent 3, strides `[3,1]`). -/
theorem C7_amended :
    tC7.toNestedArrays =
      .arr [some (.arr [some (.num 1), some (.num 2), some (.num 3)]),
            some (.arr [some (.num 4), some (.num 5), some (.num 6)])] := rfl

/-- C8 counterexample: the tensor of native shape `[0]` (empty data) has a
trailing-aligned pair with native extent 0 — different from 1 — and target
extent 5 — different from the native extent — yet `expand([5])` raises no
error: the falsy native extent 0 is read as 1 by `dataShape[...] || 1`. -/
theorem C8_counterexample :
    (tC8.expand [5]).2 = none ∧ tC8.dataShape = [0] ∧
      (0 : ℕ) ≠ 1 ∧ (5 : ℕ) ≠ 0 := by decide

/-- C8 amended: the native extent aligned with trailing offset `i` defaults
to 1 both when the native shape is shorter and when the native extent is 0
(both are falsy under `dataShape[shapeLen - i] || 1`); `expand` succeeds iff
every trailing-aligned pair passes, an `IncompatibleExpand` failure exhibits
a pair whose effective native extent is neither 1 nor the target extent, an
`InvalidExpandSize` failure exhibits a pair whose target extent is below 1
(the error raised is that of the first failing pair scanning from the
trailing end, `IncompatibleExpand` checked first), and any failure leaves
the tensor — hence the view overlay — unchanged. -/
theorem C8_amended (t : Tensor) (dims : List ℕ)
    (hw : ∀ d ∈ dims, d < 2 ^ 32) :
    ((t.expand dims).2 = none ↔
      ∀ i ∈ List.range' 1 dims.length,
        (oldSizeAt t.dataShape i = 1 ∨
          dims.getD (dims.length - i) 0 = oldSizeAt t.dataShape i) ∧
        1 ≤ dims.getD (dims.length - i) 0) ∧
    ((t.expand dims).2 = some .incompatibleExpand →
      ∃ i ∈ List.range' 1 dims.length,
        oldSizeAt t.dataShape i ≠ 1 ∧
          dims.getD (dims.length - i) 0 ≠ oldSizeAt t.dataShape i) ∧
    ((t.expand dims).2 = some .invalidExpandSize →
      ∃ i ∈ List.range' 1 dims.length, dims.getD (dims.length - i) 0 < 1) ∧
    (∀ e, (t.expand dims).2 = some e → (t.expand dims).1 = t) := by
  have hmap : dims.map (fun d => d % 2 ^ 32) = dims := by
    have hc : ∀ d ∈ dims, d % 2 ^ 32 = d := fun d hd => Nat.mod_eq_of_lt (hw d hd)
    rw [List.map_congr_left hc, List.map_id']
  rw [Tensor.expand, hmap]
  cases hF : (List.range' 1 dims.length).findSome? (pairCheck t.dataShape dims) with
  | none =>
    rw [findSome?_none_iff] at hF
    refine ⟨?_, by simp, by simp, by simp⟩
    simp only [true_iff]
    intro i hi
    exact (pairCheck_none_iff _ _ _).mp (hF i hi)
  | some e =>
    refine ⟨⟨fun h => absurd h (by simp), fun hall => ?_⟩, ?_, ?_, fun e h => rfl⟩
    · obtain ⟨i, hi, hpc⟩ := exists_of_findSome?_some hF
      rw [(pairCheck_none_iff _ _ _).mpr (hall i hi)] at hpc
      exact Option.noConfusion hpc
    · intro he
      simp only [Option.some.injEq] at he
      subst he
      obtain ⟨i, hi, hpc⟩ := exists_of_findSome?_some hF
      exact ⟨i, hi, pairCheck_incompat hpc⟩
    · intro he
      simp only [Option.some.injEq] at he
      subst he
      obtain ⟨i, hi, hpc⟩ := exists_of_findSome?_some hF
      exact ⟨i, hi, pairCheck_invsize hpc⟩

theorem C8_witness :
    ((okD (Tensor.make [1,3] [1,2,3]) tensor0).expand [2,4]).1 =
      okD (Tensor.make [1,3] [1,2,3]) tensor0 :=
  (C8_amended (okD (Tensor.make [1,3] [1,2,3]) tensor0) [2,4]
    (by decide)).2.2.2 .incompatibleExpand (by rfl)

/-- C9: shapes containing a zero extent are accepted whenever the data
length equals the (zero) product, and the resulting tensor has size 0. -/
theorem C9_zeroExtent (S : List ℕ) (D : List ℤ) (h0 : 0 ∈ S)
    (hlen : D.length = S.prod) :
    (Tensor.make S D).map Tensor.size = .ok 0 := by
  have hp : S.prod = 0 := List.prod_eq_zero h0
  simp only [Tensor.make, hlen, ne_eq, not_true_eq_false, if_false, ite_false,
    if_neg, Except.map]
  simp [Tensor.size, hlen, hp]

theorem C9_witness : (Tensor.make [0] ([] : List ℤ)).map Tensor.size = .ok 0 :=
  C9_zeroExtent [0] [] (by decide) (by decide)

/-- C10: `expand` accepts a target of lower rank: the native-shape-`[4,3]`
tensor (12 native elements, rank 2) expands to `[3]` (rank 1) with no
error, installing a view of logical size 3, smaller than the native buffer
length 12. -/
theorem C10_lowerRank :
    (((okD (Tensor.make [4,3] dataTwelve) tensor0).expand [3]).2 = none) ∧
    (((okD (Tensor.make [4,3] dataTwelve) tensor0).expand [3]).1.size = 3) ∧
    (((okD (Tensor.make [4,3] dataTwelve) tensor0).expand [3]).1.dataSize = 12) ∧
    (((okD (Tensor.make [4,3] dataTwelve) tensor0).expand [3]).1.shape.length = 1) ∧
    ((okD (Tensor.make [4,3] dataTwelve) tensor0).dataShape.length = 2) ∧
    (3 : ℕ) < 12 := by decide

end TensorTS
